import Mathlib

/-!
ScriptGroupList: a shallow embedding of the constructor in `src/script/api/script_grouplist.cpp`:

```
ScriptGroupList::ScriptGroupList()
{
	EnforceCompanyModeValid_Void();
	for (const Group *g : Group::Iterate()) {
		if (g->owner == ScriptObject::GetCompany()) this->AddItem(g->index);
	}
}
```

The constructor reads the group pool and the script's current company and
writes only the list under construction. It is embedded as a state-passing
function `ScriptState → ScriptState × ScriptList`.
-/

namespace OpenTTD

/-- Identifier of a group: `GroupID`, an unsigned 16-bit pool index. -/
abbrev GroupID := Nat

/-- Identifier of a company: `Owner` / `CompanyID`, an unsigned 8-bit value. -/
abbrev Owner := Nat

/-- Squirrel integer: `SQInteger`, a signed 64-bit value. Every `GroupID`
converts to it without change of value. -/
abbrev SQInteger := Int

/-- The two fields of `Group` the constructor reads: `g->index` and `g->owner`. -/
structure Group where
  index : GroupID
  owner : Owner
deriving DecidableEq

/-- Modelled from the spec: the list base class `ScriptList` is not part of the
source file. It is the "list container inherited from a generic list base":
the (item, value) entries it holds, in insertion order. -/
structure ScriptList where
  items : List (SQInteger × SQInteger)
deriving DecidableEq

namespace ScriptList

/-- Modelled from the spec: the list produced by the base class constructor,
before any item is inserted. -/
def empty : ScriptList := ⟨[]⟩

/-- Modelled from the spec: `ScriptList::HasItem`, whether `item` is held by the list. -/
def HasItem (l : ScriptList) (item : SQInteger) : Bool :=
  l.items.any (fun p => p.1 == item)

/-- Modelled from the spec: `ScriptList::Count`, the number of items held. -/
def Count (l : ScriptList) : Nat := l.items.length

/-- Modelled from the spec: `ScriptList::AddItem(item, value)`, which "inserts"
an identifier into the container. The container holds an item at most once:
adding an item that is already held leaves the list as it is. -/
def AddItem (l : ScriptList) (item value : SQInteger) : ScriptList :=
  if l.HasItem item then l else ⟨l.items ++ [(item, value)]⟩

end ScriptList

/-- The state the constructor runs in: the process-wide group pool in
iteration order, the company the script currently acts for, and whether the
script is in a valid company mode. -/
structure ScriptState where
  groups : List Group
  company : Owner
  companyModeValid : Bool
deriving DecidableEq

/-- Modelled from the spec: `Group::Iterate()`, the groups of the pool in iteration order. -/
def Group.Iterate (s : ScriptState) : List Group := s.groups

/-- Modelled from the spec: `ScriptObject::GetCompany()`, "the currently active
company identity". -/
def ScriptObject.GetCompany (s : ScriptState) : Owner := s.company

/-- Modelled from the spec: `ScriptCompanyMode::IsValid()`, the condition that
"company validity enforcement" tests. -/
def ScriptCompanyMode.IsValid (s : ScriptState) : Bool := s.companyModeValid

/-- Modelled from the spec: the macro `EnforceCompanyModeValid_Void()` is not
part of the source file. It makes the enclosing function return when the
company mode is not valid; the result is `true` exactly when it returns. -/
def EnforceCompanyModeValid_Void (s : ScriptState) : Bool :=
  !ScriptCompanyMode.IsValid s

/-- The loop body of the constructor (line 21):
`if (g->owner == ScriptObject::GetCompany()) this->AddItem(g->index);`
acting on the state and the list under construction. `AddItem` is called with
its default value `0`. -/
def ScriptGroupList.loopBody (st : ScriptState × ScriptList) (g : Group) :
    ScriptState × ScriptList :=
  if g.owner = ScriptObject.GetCompany st.1 then
    (st.1, st.2.AddItem (g.index : SQInteger) 0)
  else st

/-- The constructor `ScriptGroupList::ScriptGroupList()` (lines 17-23): the
state after construction and the list that was built. -/
def ScriptGroupList (s : ScriptState) : ScriptState × ScriptList :=
  if EnforceCompanyModeValid_Void s then (s, ScriptList.empty)
  else (Group.Iterate s).foldl ScriptGroupList.loopBody (s, ScriptList.empty)

/-! ## Properties of the list base -/

theorem ScriptList.HasItem_empty (id : SQInteger) : ScriptList.empty.HasItem id = false := rfl

theorem ScriptList.HasItem_AddItem (l : ScriptList) (item value id : SQInteger) :
    (l.AddItem item value).HasItem id = true ↔ l.HasItem id = true ∨ id = item := by
  unfold ScriptList.AddItem
  by_cases h : l.HasItem item = true
  · rw [if_pos h]
    constructor
    · intro h1; exact Or.inl h1
    · rintro (h1 | h1)
      · exact h1
      · rw [h1]; exact h
  · rw [if_neg h]
    simp only [ScriptList.HasItem, List.any_append, List.any_cons, List.any_nil, Bool.or_false,
      Bool.or_eq_true, beq_iff_eq]
    constructor
    · rintro (h1 | h1)
      · exact Or.inl h1
      · exact Or.inr h1.symm
    · rintro (h1 | h1)
      · exact Or.inl h1
      · exact Or.inr h1.symm

theorem ScriptList.Count_AddItem_of_not_HasItem (l : ScriptList) (item value : SQInteger)
    (h : l.HasItem item = false) : (l.AddItem item value).Count = l.Count + 1 := by
  unfold ScriptList.AddItem
  rw [h]
  simp [ScriptList.Count]

/-! ## The loop of the constructor -/

/-- An id is held after the loop iff it was held before or it is the index of a
group, among those iterated, owned by the current company. -/
theorem ScriptGroupList.loop_HasItem (gs : List Group) (st : ScriptState × ScriptList)
    (id : SQInteger) :
    (gs.foldl ScriptGroupList.loopBody st).2.HasItem id = true ↔
      st.2.HasItem id = true ∨
        ∃ g ∈ gs, (g.index : SQInteger) = id ∧ g.owner = ScriptObject.GetCompany st.1 := by
  induction gs generalizing st with
  | nil => simp
  | cons g gs ih =>
    rw [List.foldl_cons, ih]
    unfold ScriptGroupList.loopBody
    by_cases ho : g.owner = ScriptObject.GetCompany st.1
    · rw [if_pos ho]
      simp only [ScriptList.HasItem_AddItem, List.mem_cons, exists_eq_or_imp]
      constructor
      · rintro ((h | h) | h)
        · exact Or.inl h
        · exact Or.inr (Or.inl ⟨h.symm, ho⟩)
        · exact Or.inr (Or.inr h)
      · rintro (h | ⟨h, _⟩ | h)
        · exact Or.inl (Or.inl h)
        · exact Or.inl (Or.inr h.symm)
        · exact Or.inr h
    · rw [if_neg ho]
      simp only [List.mem_cons, exists_eq_or_imp]
      constructor
      · rintro (h | h)
        · exact Or.inl h
        · exact Or.inr (Or.inr h)
      · rintro (h | ⟨_, h⟩ | h)
        · exact Or.inl h
        · exact absurd h ho
        · exact Or.inr h

/-- When the iterated groups have pairwise distinct indices, none of them held
by the list yet, the loop adds one item per group owned by the current company. -/
theorem ScriptGroupList.loop_Count (gs : List Group) (st : ScriptState × ScriptList)
    (hd : (gs.map Group.index).Nodup)
    (hfresh : ∀ g ∈ gs, st.2.HasItem (g.index : SQInteger) = false) :
    (gs.foldl ScriptGroupList.loopBody st).2.Count =
      st.2.Count + gs.countP (fun g => decide (g.owner = ScriptObject.GetCompany st.1)) := by
  induction gs generalizing st with
  | nil => simp
  | cons g gs ih =>
    rw [List.map_cons, List.nodup_cons] at hd
    have hg : st.2.HasItem (g.index : SQInteger) = false := hfresh g (List.mem_cons_self _ _)
    rw [List.foldl_cons]
    by_cases ho : g.owner = ScriptObject.GetCompany st.1
    · have hb : ScriptGroupList.loopBody st g = (st.1, st.2.AddItem (g.index : SQInteger) 0) := by
        unfold ScriptGroupList.loopBody; rw [if_pos ho]
      rw [hb, ih _ hd.2]
      · rw [ScriptList.Count_AddItem_of_not_HasItem _ _ _ hg,
          List.countP_cons_of_pos _ _ (by simpa using ho)]
        dsimp only
        omega
      · intro g2 hg2
        have hne : (g2.index : SQInteger) ≠ (g.index : SQInteger) := by
          intro he
          have he2 : g2.index = g.index := by exact_mod_cast he
          exact hd.1 (he2 ▸ List.mem_map_of_mem Group.index hg2)
        have h2 := hfresh g2 (List.mem_cons_of_mem _ hg2)
        cases hc : ScriptList.HasItem (st.2.AddItem (g.index : SQInteger) 0) (g2.index : SQInteger) with
        | false => rfl
        | true =>
          rcases (ScriptList.HasItem_AddItem _ _ _ _).1 hc with h3 | h3
          · rw [h2] at h3; exact absurd h3 (by decide)
          · exact absurd h3 hne
    · have hb : ScriptGroupList.loopBody st g = st := by
        unfold ScriptGroupList.loopBody; rw [if_neg ho]
      rw [hb, ih _ hd.2 (fun g2 hg2 => hfresh g2 (List.mem_cons_of_mem _ hg2)),
        List.countP_cons_of_neg _ _ (by simpa using ho)]

/-! ## The constructor -/

/-- In a valid company mode the constructor runs the loop over the whole pool. -/
theorem ScriptGroupList.eq_loop_of_valid (s : ScriptState)
    (hv : ScriptCompanyMode.IsValid s = true) :
    ScriptGroupList s =
      (Group.Iterate s).foldl ScriptGroupList.loopBody (s, ScriptList.empty) := by
  have he : EnforceCompanyModeValid_Void s = false := by
    unfold EnforceCompanyModeValid_Void; rw [hv]; rfl
  unfold ScriptGroupList
  rw [he]
  simp only [Bool.false_eq_true, if_false]

/-- In a company mode that is not valid the constructor returns at once. -/
theorem ScriptGroupList.eq_empty_of_invalid (s : ScriptState)
    (hv : ScriptCompanyMode.IsValid s = false) :
    ScriptGroupList s = (s, ScriptList.empty) := by
  have he : EnforceCompanyModeValid_Void s = true := by
    unfold EnforceCompanyModeValid_Void; rw [hv]; rfl
  unfold ScriptGroupList
  rw [he]
  rfl

/-- Membership in the list built in a valid company mode. -/
theorem ScriptGroupList.HasItem_of_valid (s : ScriptState)
    (hv : ScriptCompanyMode.IsValid s = true) (id : SQInteger) :
    (ScriptGroupList s).2.HasItem id = true ↔
      ∃ g ∈ Group.Iterate s,
        (g.index : SQInteger) = id ∧ g.owner = ScriptObject.GetCompany s := by
  rw [ScriptGroupList.eq_loop_of_valid s hv, ScriptGroupList.loop_HasItem]
  simp [ScriptList.HasItem_empty]

/-- C1: in a valid company mode, an id is an item of the constructed list if and
only if some group of the pool has that index and is owned by the company
`ScriptObject::GetCompany()` returns. -/
theorem ScriptGroupList_HasItem_iff_owned (s : ScriptState)
    (hv : ScriptCompanyMode.IsValid s = true) (id : SQInteger) :
    (ScriptGroupList s).2.HasItem id = true ↔
      ∃ g ∈ Group.Iterate s,
        (g.index : SQInteger) = id ∧ g.owner = ScriptObject.GetCompany s :=
  ScriptGroupList.HasItem_of_valid s hv id

/-- C1, at a pool of three groups of which company 1 owns those with index 0 and 2:
id 2 is in the list built for company 1. -/
theorem ScriptGroupList_HasItem_iff_owned_witness :
    ScriptCompanyMode.IsValid ⟨[⟨0, 1⟩, ⟨1, 4⟩, ⟨2, 1⟩], 1, true⟩ = true ∧
    ((ScriptGroupList ⟨[⟨0, 1⟩, ⟨1, 4⟩, ⟨2, 1⟩], 1, true⟩).2.HasItem 2 = true ↔
      ∃ g ∈ Group.Iterate ⟨[⟨0, 1⟩, ⟨1, 4⟩, ⟨2, 1⟩], 1, true⟩,
        (g.index : SQInteger) = 2 ∧
          g.owner = ScriptObject.GetCompany ⟨[⟨0, 1⟩, ⟨1, 4⟩, ⟨2, 1⟩], 1, true⟩) :=
  ⟨rfl, ScriptGroupList_HasItem_iff_owned ⟨[⟨0, 1⟩, ⟨1, 4⟩, ⟨2, 1⟩], 1, true⟩ rfl 2⟩

/-- C3: when the company mode is not valid the constructor returns before the
loop, so the list is the empty list: it has no item and holds no id, whatever
the pool and the current company are. -/
theorem ScriptGroupList_empty_of_invalid (s : ScriptState)
    (hv : ScriptCompanyMode.IsValid s = false) :
    (ScriptGroupList s).2 = ScriptList.empty ∧
    (ScriptGroupList s).2.Count = 0 ∧
    ∀ id : SQInteger, (ScriptGroupList s).2.HasItem id = false := by
  rw [ScriptGroupList.eq_empty_of_invalid s hv]
  exact ⟨rfl, rfl, fun _ => rfl⟩

/-- C3, at a pool whose groups 0 and 2 are owned by company 1, the company
`GetCompany` returns, in a company mode that is not valid. -/
theorem ScriptGroupList_empty_of_invalid_witness :
    ScriptCompanyMode.IsValid ⟨[⟨0, 1⟩, ⟨1, 4⟩, ⟨2, 1⟩], 1, false⟩ = false ∧
    ((ScriptGroupList ⟨[⟨0, 1⟩, ⟨1, 4⟩, ⟨2, 1⟩], 1, false⟩).2 = ScriptList.empty ∧
     (ScriptGroupList ⟨[⟨0, 1⟩, ⟨1, 4⟩, ⟨2, 1⟩], 1, false⟩).2.Count = 0 ∧
     ∀ id : SQInteger,
       (ScriptGroupList ⟨[⟨0, 1⟩, ⟨1, 4⟩, ⟨2, 1⟩], 1, false⟩).2.HasItem id = false) :=
  ⟨rfl, ScriptGroupList_empty_of_invalid ⟨[⟨0, 1⟩, ⟨1, 4⟩, ⟨2, 1⟩], 1, false⟩ rfl⟩

/-- C4: over a pool whose group indices are pairwise distinct, in a valid
company mode, the number of items of the constructed list is the number of
groups of the pool owned by the current company. -/
theorem ScriptGroupList_Count_eq_owned (s : ScriptState)
    (hd : ((Group.Iterate s).map Group.index).Nodup)
    (hv : ScriptCompanyMode.IsValid s = true) :
    (ScriptGroupList s).2.Count =
      (Group.Iterate s).countP (fun g => decide (g.owner = ScriptObject.GetCompany s)) := by
  rw [ScriptGroupList.eq_loop_of_valid s hv,
    ScriptGroupList.loop_Count _ _ hd (fun _ _ => ScriptList.HasItem_empty _)]
  simp [ScriptList.Count, ScriptList.empty]

/-- C4, at a pool of three groups with indices 0, 1, 2 of which company 1 owns two. -/
theorem ScriptGroupList_Count_eq_owned_witness :
    ((Group.Iterate ⟨[⟨0, 1⟩, ⟨1, 4⟩, ⟨2, 1⟩], 1, true⟩).map Group.index).Nodup ∧
    ScriptCompanyMode.IsValid ⟨[⟨0, 1⟩, ⟨1, 4⟩, ⟨2, 1⟩], 1, true⟩ = true ∧
    (ScriptGroupList ⟨[⟨0, 1⟩, ⟨1, 4⟩, ⟨2, 1⟩], 1, true⟩).2.Count = 2 :=
  ⟨by decide, rfl,
    (ScriptGroupList_Count_eq_owned ⟨[⟨0, 1⟩, ⟨1, 4⟩, ⟨2, 1⟩], 1, true⟩ (by decide) rfl).trans
      (by decide)⟩

end OpenTTD
